import Mathlib

/-!
Shallow embedding of the retrieval-reflection-iteration RAG engine of the
crybaby repository (src/langgraph-demo).  Python floats are modelled as
rationals, Python ints as naturals (iteration counters never go negative and
the configuration is assumed non-negative, as the spec requires), Python
dicts with insertion order as association lists, and every external call
(LLM, embedding + vector search, web search) as an oracle argument: an
Option value where none models the call raising an exception.
-/

namespace Crybaby

/-- Chunk dictionaries built by the retrieve node in
src/agent/rag/nodes.py: content, metadata, score, sub_query.
Metadata values are modelled as strings; no node inspects them. -/
structure RetrievedChunk where
  content : String
  metadata : List (String × String)
  score : ℚ
  sub_query : String
deriving DecidableEq, Repr, Inhabited

/-- DocumentChunk from src/agent/vector_store/base.py. -/
structure DocumentChunk where
  id : String
  content : String
  metadata : List (String × String)
  embedding : Option (List ℚ) := none
deriving DecidableEq, Repr, Inhabited

/-- SearchResult from src/agent/vector_store/base.py. -/
structure SearchResult where
  chunk : DocumentChunk
  score : ℚ
deriving DecidableEq, Repr, Inhabited

/-- Web search result dictionaries built by the web_search node. -/
structure WebResult where
  title : String
  url : String
  content : String
  score : ℚ
deriving DecidableEq, Repr, Inhabited

/-- RAGConfig from src/agent/config.py (the fields the graph reads). -/
structure RAGConfig where
  top_k : ℕ := 5
  rerank_top_k : ℕ := 3
  similarity_threshold : ℚ := 2/5
  max_iterations : ℕ := 3
  enable_reflection : Bool := true
  enable_iteration : Bool := true
deriving DecidableEq, Repr, Inhabited

/-- GraphRAGState from src/agent/rag/state.py (the messages and metadata
fields, which no node of the graph reads or writes, are omitted). -/
structure GraphRAGState where
  query : String
  user_id : Option String
  sub_queries : List String
  sub_query_results : List (String × List RetrievedChunk)
  retrieved_chunks : List RetrievedChunk
  retrieval_scores : List ℚ
  reranked_chunks : List RetrievedChunk
  web_search_results : List WebResult
  use_web_search : Bool
  reflection_result : Option String
  needs_iteration : Bool
  iteration_count : ℕ
  refined_query : Option String
  final_answer : Option String
deriving DecidableEq, Repr, Inhabited

/-- The fresh state a request starts from: empty collections, counters at
the defaults that state.get supplies. -/
def initState (q : String) (uid : Option String) : GraphRAGState :=
  { query := q, user_id := uid, sub_queries := [], sub_query_results := [],
    retrieved_chunks := [], retrieval_scores := [], reranked_chunks := [],
    web_search_results := [], use_web_search := false, reflection_result := none,
    needs_iteration := false, iteration_count := 0, refined_query := none,
    final_answer := none }

/-- Membership test for the insertion-ordered dict model, mirroring the
Python expression sq in sub_query_results. -/
def dictContains (d : List (String × List RetrievedChunk)) (k : String) : Bool :=
  d.any (fun p => p.1 = k)

/-- Assignment d[k] = v on the insertion-ordered dict model: replace in
place when the key exists, append otherwise. -/
def dictInsert (d : List (String × List RetrievedChunk)) (k : String)
    (v : List RetrievedChunk) : List (String × List RetrievedChunk) :=
  if dictContains d k then d.map (fun p => if p.1 = k then (k, v) else p)
  else d ++ [(k, v)]

/-! Node implementations, from src/agent/rag/nodes.py.  Each Lean function
applies the partial-state update the Python node returns to the incoming
state, touching exactly the fields the returned dict contains. -/

namespace Nodes

/-- Splitting a character sequence at a separator, with Python semantics:
the empty sequence yields one empty group, a trailing separator yields a
trailing empty group. -/
def splitOnChar (sep : Char) : List Char → List (List Char)
  | [] => [[]]
  | c :: cs =>
      let r := splitOnChar sep cs
      if c = sep then [] :: r
      else
        match r with
        | [] => [[c]]
        | g :: gs => (c :: g) :: gs

/-- Python str.strip on a character sequence: drop whitespace from both
ends. -/
def trimChars (l : List Char) : List Char :=
  ((l.dropWhile Char.isWhitespace).reverse.dropWhile Char.isWhitespace).reverse

/-- Python str.strip. -/
def strTrim (s : String) : String := String.mk (trimChars s.toList)

/-- Characters removed from the head of a line by the enumeration-marker
regex in decompose_query (character class: digits, dot, closing
parenthesis, whitespace). -/
def isEnumMarkerChar (c : Char) : Bool :=
  c.isDigit || c = '.' || c = ')' || c.isWhitespace

/-- Per-line parsing of the decomposition LLM response (nodes.py lines
106-115): split on newlines, strip, drop the leading enumeration-marker
run, keep the non-empty remainders. -/
def parseSubQueries (response : String) : List String :=
  (splitOnChar '\n' response.toList).filterMap (fun line =>
    let l := trimChars line
    if l = [] then none
    else
      let l2 := l.dropWhile isEnumMarkerChar
      if l2 = [] then none else some (String.mk l2))

/-- decompose_query (nodes.py lines 58-137).  The oracle resp is the raw
LLM reply; none models the LLM call raising. -/
def decompose_query (resp : Option String) (s : GraphRAGState) : GraphRAGState :=
  match resp with
  | none => { s with sub_queries := [s.query], sub_query_results := [] }
  | some r =>
      let sq := parseSubQueries (strTrim r)
      let sq := if sq = [] then [s.query] else sq
      { s with sub_queries := sq, sub_query_results := [] }

/-- Static-threshold filtering in retrieve (nodes.py lines 194-201): keep
hits whose score reaches the threshold, converting each to a chunk dict
tagged with the query that produced it. -/
def thresholdFilter (results : List SearchResult) (t : ℚ) (subq : String) :
    List RetrievedChunk :=
  (results.filter (fun r => t ≤ r.score)).map (fun r =>
    { content := r.chunk.content, metadata := r.chunk.metadata,
      score := r.score, sub_query := subq })

/-- max(r.score for r in search_results) over a non-empty list (the empty
case is never taken: the caller guards on a non-empty list). -/
def maxScore : List SearchResult → ℚ
  | [] => 0
  | r :: rs => rs.foldl (fun a x => max a x.score) r.score

/-- The relaxed threshold of the dynamic fallback (nodes.py line 213). -/
def dynamicThreshold (results : List SearchResult) : ℚ :=
  max (maxScore results * (3/4)) (3/10)

/-- The filtering performed by one retrieve invocation (nodes.py lines
186-226): static filter first; if it keeps nothing while the backend
returned something, append the hits passing the relaxed threshold (the
kept list is empty there, so this re-filters all hits). -/
def retrieveChunks (cfg : RAGConfig) (results : List SearchResult)
    (subq : String) : List RetrievedChunk :=
  let kept := thresholdFilter results cfg.similarity_threshold subq
  if kept.length = 0 ∧ 0 < results.length then
    kept ++ thresholdFilter results (dynamicThreshold results) subq
  else kept

/-- aggregate_results deduplication loop (nodes.py lines 297-307): the
fingerprint is the first 100 characters of the content (Python hashes this
prefix; equal prefixes collide by construction). -/
def fingerprint (c : RetrievedChunk) : String := String.mk (c.content.toList.take 100)

/-- The seen-set fold of the deduplication loop: keep a chunk iff its
fingerprint has not been seen, first occurrence wins. -/
def dedupChunks : List RetrievedChunk → List String → List RetrievedChunk
  | [], _ => []
  | c :: cs, seen =>
      if fingerprint c ∈ seen then dedupChunks cs seen
      else c :: dedupChunks cs (fingerprint c :: seen)

/-- aggregate_results (nodes.py lines 270-315): with no sub-queries or no
recorded results it returns an empty update; otherwise it flattens the
per-sub-query result lists in dict order, deduplicates by content
fingerprint and flags web search exactly when nothing survives. -/
def aggregate_results (s : GraphRAGState) : GraphRAGState :=
  if s.sub_queries = [] ∨ s.sub_query_results = [] then s
  else
    let all_chunks := (s.sub_query_results.map Prod.snd).flatten
    let unique := dedupChunks all_chunks []
    { s with retrieved_chunks := unique,
             retrieval_scores := unique.map (fun c => c.score),
             use_web_search := unique.length = 0 }

/-- Shared body of retrieve after the current query is chosen (nodes.py
lines 168-267).  searchResp abstracts the embedding call plus the vector
search: none models an exception anywhere in the try block. -/
def retrieveBody (cfg : RAGConfig) (searchResp : Option (List SearchResult))
    (s : GraphRAGState) (current : String) : GraphRAGState :=
  match searchResp with
  | some results =>
      let chunks := retrieveChunks cfg results current
      if s.sub_queries = [] then
        { s with retrieved_chunks := chunks,
                 retrieval_scores := chunks.map (fun c => c.score),
                 use_web_search := chunks.length = 0 }
      else
        { s with sub_query_results := dictInsert s.sub_query_results current chunks }
  | none =>
      if s.sub_queries = [] then
        { s with retrieved_chunks := [], retrieval_scores := [],
                 use_web_search := true }
      else
        let s' := { s with sub_query_results := dictInsert s.sub_query_results current [] }
        if s.sub_queries.length ≤ s'.sub_query_results.length then aggregate_results s'
        else s'

/-- retrieve (nodes.py lines 140-267): pick the first sub-query that is
not yet a key of sub_query_results, or the bare query when there are no
sub-queries; when sub-queries exist but none remain unprocessed the node
delegates to aggregate_results inline. -/
def retrieve (cfg : RAGConfig) (searchResp : Option (List SearchResult))
    (s : GraphRAGState) : GraphRAGState :=
  if s.sub_queries ≠ [] ∧ s.sub_query_results.length < s.sub_queries.length then
    match s.sub_queries.filter (fun sq => ¬ dictContains s.sub_query_results sq) with
    | [] => aggregate_results s
    | current :: _ => retrieveBody cfg searchResp s current
  else retrieveBody cfg searchResp s s.query

/-- Numeric value of an all-digit token, as Python int() computes it. -/
def digitsToNat (l : List Char) : ℕ :=
  l.foldl (fun a c => 10 * a + (c.toNat - 48)) 0

/-- Comma-split token parsing of the rerank LLM reply (nodes.py line 363):
strip each token, keep the all-digit non-empty ones as numbers. -/
def parsedIndices (response : String) : List ℕ :=
  ((splitOnChar ',' response.toList).map trimChars).filterMap
    (fun t => if t ≠ [] ∧ t.all Char.isDigit then some (digitsToNat t) else none)

/-- In-range validation (nodes.py line 365): the reply is 1-based, the
kept indices are the 0-based ones falling inside the chunk list. -/
def validIndices (response : String) (n : ℕ) : List ℕ :=
  (parsedIndices response).filterMap
    (fun v => if 1 ≤ v ∧ v - 1 < n then some (v - 1) else none)

/-- The list the rerank node returns for the reranked_chunks field
(nodes.py lines 318-393), as a function of the retrieved chunks and the
LLM reply (none models the LLM call raising).  The set difference the
source iterates for the unranked remainder is modelled in ascending index
order; no claim depends on that order. -/
def rerankCore (cfg : RAGConfig) (resp : Option String)
    (chunks : List RetrievedChunk) : List RetrievedChunk :=
  if chunks = [] ∨ cfg.enable_reflection = false then chunks
  else
    match resp with
    | none => chunks.take cfg.rerank_top_k
    | some r =>
        let valid := validIndices (strTrim r) chunks.length
        let reranked :=
          if valid = [] then chunks
          else valid.filterMap (fun i => chunks[i]?) ++
            ((List.range chunks.length).filter (fun i => i ∉ valid)).filterMap
              (fun i => chunks[i]?)
        reranked.take cfg.rerank_top_k

/-- rerank as a state transformer; the reranked_chunks field of the state
carries an additive reducer (state.py line 32), so the returned list is
appended to the field rather than replacing it. -/
def rerank (cfg : RAGConfig) (resp : Option String) (s : GraphRAGState) :
    GraphRAGState :=
  { s with reranked_chunks :=
      s.reranked_chunks ++ rerankCore cfg resp s.retrieved_chunks }

/-- web_search (nodes.py lines 396-466): a no-op with an empty result list
unless the use_web_search flag is set; a missing client library, missing
credentials or a raised exception (all modelled by resp = none) degrade to
an empty result list. -/
def web_search (resp : Option (List WebResult)) (s : GraphRAGState) :
    GraphRAGState :=
  if s.use_web_search = false then { s with web_search_results := [] }
  else
    match resp with
    | none => { s with web_search_results := [] }
    | some rs => { s with web_search_results := rs }

/-- Needle occurs at the head of the haystack. -/
def leadMatch : List Char → List Char → Bool
  | _, [] => true
  | [], _ :: _ => false
  | a :: hs, b :: ns => a = b && leadMatch hs ns

/-- Substring occurrence, modelling the Python expression needle in hay. -/
def occursIn (needle : List Char) : List Char → Bool
  | [] => leadMatch [] needle
  | a :: t => leadMatch (a :: t) needle || occursIn needle t

/-- Python substring containment on strings. -/
def strContains (hay needle : String) : Bool :=
  occursIn needle.toList hay.toList

/-- reflect (nodes.py lines 469-536): disabled reflection and LLM failure
both yield needs_iteration = false; otherwise the flag is set iff the
reply contains an insufficiency marker or nothing was retrieved, and the
iteration counter is still below the configured maximum. -/
def reflect (cfg : RAGConfig) (resp : Option String) (s : GraphRAGState) :
    GraphRAGState :=
  if cfg.enable_reflection = false then
    { s with reflection_result := some "反思已禁用", needs_iteration := false }
  else
    match resp with
    | none => { s with reflection_result := some "反思过程出错", needs_iteration := false }
    | some r =>
        let needs :=
          (strContains r "不充分" || strContains r "需要改进" || strContains r "不足" ||
            decide (s.retrieved_chunks.length = 0)) &&
          decide (s.iteration_count < cfg.max_iterations)
        { s with reflection_result := some r, needs_iteration := needs }

/-- refine_query (nodes.py lines 539-584): the counter is incremented on
both the success and the failure path; only the success path overwrites
the query field. -/
def refine_query (resp : Option String) (s : GraphRAGState) : GraphRAGState :=
  match resp with
  | some r =>
      { s with refined_query := some (strTrim r), query := strTrim r,
               iteration_count := s.iteration_count + 1 }
  | none =>
      { s with refined_query := some s.query,
               iteration_count := s.iteration_count + 1 }

/-- generate_answer (nodes.py lines 587-676): an LLM failure becomes an
error-describing answer string rather than an exception. -/
def generate_answer (resp : Option String) (s : GraphRAGState) : GraphRAGState :=
  match resp with
  | some r => { s with final_answer := some r }
  | none => { s with final_answer := some "生成答案时出错" }

end Nodes

/-! Router and graph interpreter, from src/agent/rag/graph.py. -/

/-- The eight node names of the workflow graph. -/
inductive Node where
  | decompose_query
  | retrieve
  | aggregate_results
  | rerank
  | web_search
  | reflect
  | refine_query
  | generate_answer
deriving DecidableEq, Repr

/-- should_continue_reflection (graph.py lines 14-29). -/
def should_continue_reflection (cfg : RAGConfig) (s : GraphRAGState) : Node :=
  if s.needs_iteration = true ∧ s.iteration_count < cfg.max_iterations then
    Node.refine_query
  else Node.generate_answer

/-- rerank_or_web_search (graph.py lines 82-97). -/
def rerank_or_web_search (s : GraphRAGState) : Node :=
  if s.use_web_search = true ∨ s.retrieved_chunks.length = 0 then Node.web_search
  else Node.rerank

/-- should_continue_retrieve (graph.py lines 51-79). -/
def should_continue_retrieve (s : GraphRAGState) : Node :=
  if s.sub_queries ≠ [] ∧ s.sub_query_results.length < s.sub_queries.length then
    Node.retrieve
  else if s.sub_queries ≠ [] ∧ s.sub_queries.length ≤ s.sub_query_results.length then
    Node.aggregate_results
  else if s.sub_queries = [] ∧ s.retrieved_chunks ≠ [] then
    if s.use_web_search = true ∨ s.retrieved_chunks.length = 0 then Node.web_search
    else Node.rerank
  else Node.web_search

/-- The external replies one node execution may consume. -/
structure Env where
  llm : Option String
  searchResp : Option (List SearchResult)
  web : Option (List WebResult)

/-- Execute one node against the state (the interpreter merges the node's
returned fields into the state; all fields merge by overwrite except
reranked_chunks, whose reducer appends). -/
def runNode (cfg : RAGConfig) (e : Env) : Node → GraphRAGState → GraphRAGState
  | Node.decompose_query, s => Nodes.decompose_query e.llm s
  | Node.retrieve, s => Nodes.retrieve cfg e.searchResp s
  | Node.aggregate_results, s => Nodes.aggregate_results s
  | Node.rerank, s => Nodes.rerank cfg e.llm s
  | Node.web_search, s => Nodes.web_search e.web s
  | Node.reflect, s => Nodes.reflect cfg e.llm s
  | Node.refine_query, s => Nodes.refine_query e.llm s
  | Node.generate_answer, s => Nodes.generate_answer e.llm s

/-- The edge map of create_rag_graph (graph.py lines 100-183): fixed edges
are constant, conditional edges consult the router; generate_answer leads
to END, modelled as none. -/
def nextNode (cfg : RAGConfig) : Node → GraphRAGState → Option Node
  | Node.decompose_query, _ => some Node.retrieve
  | Node.retrieve, s => some (should_continue_retrieve s)
  | Node.aggregate_results, s => some (rerank_or_web_search s)
  | Node.rerank, _ => some Node.reflect
  | Node.web_search, _ => some Node.reflect
  | Node.reflect, s => some (should_continue_reflection cfg s)
  | Node.refine_query, _ => some Node.decompose_query
  | Node.generate_answer, _ => none

/-- One interpreter step: run the current node, merge, ask the router. -/
def step (cfg : RAGConfig) (e : Env) (p : Node × GraphRAGState) :
    Option (Node × GraphRAGState) :=
  let s' := runNode cfg e p.1 p.2
  (nextNode cfg p.1 s').map (fun n => (n, s'))

/-- The configuration reached after k interpreter steps, fed by the oracle
stream envs; none once the terminal node has executed. -/
def run (cfg : RAGConfig) (envs : ℕ → Env) (p : Node × GraphRAGState) :
    ℕ → Option (Node × GraphRAGState)
  | 0 => some p
  | k + 1 => (run cfg envs p k).bind (step cfg (envs k))

/-! High-availability store wrapper, from src/agent/vector_store/ha_store.py.
A backend is modelled by its identity, its (per-operation constant) health
answer, and the values its operations return. -/

/-- One wrapped vector-store backend.  addOk = false models its
add_documents raising; addResult is the id list a successful call
returns; the remaining fields are what its other operations return. -/
structure Backend where
  bid : ℕ
  healthy : Bool
  addOk : Bool
  addResult : List String
  searchResult : List SearchResult
  deleteResult : Bool := true
  collectionInfo : List (String × String) := []
deriving DecidableEq, Repr, Inhabited

/-- HighAvailabilityVectorStore state: the primary, the backup list and
the current pointer (initially the primary). -/
structure HAStore where
  primary : Backend
  backups : List Backend
  current : Backend
deriving DecidableEq, Repr, Inhabited

/-- The constructor sets current to the primary (ha_store.py line 25). -/
def mkHAStore (p : Backend) (bs : List Backend) : HAStore :=
  { primary := p, backups := bs, current := p }

/-- The failover routine _get_available_store (ha_store.py lines 27-45):
keep the current store while it is healthy, otherwise take the first
healthy backup, otherwise retry the primary; none models the raised
all-backends-unavailable exception.  Returns the store that will serve the
operation together with the updated wrapper. -/
def getAvailableStore (h : HAStore) : Option (Backend × HAStore) :=
  if h.current.healthy then some (h.current, h)
  else
    match h.backups.find? (fun b => b.healthy) with
    | some b => some (b, { h with current := b })
    | none =>
        if h.primary.healthy then some (h.primary, { h with current := h.primary })
        else none

/-- search (ha_store.py lines 84-93): route through the failover routine
and return the serving store's results. -/
def haSearch (h : HAStore) : Option (List SearchResult × HAStore) :=
  (getAvailableStore h).map (fun p => (p.1.searchResult, p.2))

/-- add_documents (ha_store.py lines 65-82): write through the failover
routine, then best-effort replicate to every backup that passes its health
check; a replication failure (addOk = false) is swallowed.  Besides the
returned id list and the updated wrapper, the trace of backend ids whose
add_documents was invoked is returned, the serving store first. -/
def haAddDocuments (h : HAStore) : Option (List String × HAStore × List ℕ) :=
  (getAvailableStore h).map (fun p =>
    (p.1.addResult, p.2, p.1.bid :: (h.backups.filter (fun b => b.healthy)).map
      (fun b => b.bid)))

/-- delete (ha_store.py lines 95-112): route through the failover routine,
return the serving store's answer; the follow-up deletes on healthy
backups are best-effort like replication. -/
def haDelete (h : HAStore) : Option (Bool × HAStore) :=
  (getAvailableStore h).map (fun p => (p.1.deleteResult, p.2))

/-- get_collection_info (ha_store.py lines 118-124): route through the
failover routine and describe the serving store. -/
def haGetCollectionInfo (h : HAStore) : Option (List (String × String) × HAStore) :=
  (getAvailableStore h).map (fun p => (p.1.collectionInfo, p.2))

/-! Concrete instances used by witnesses and counterexamples. -/

/-- A chunk with the given content and score. -/
def exChunk (content : String) (score : ℚ) : RetrievedChunk :=
  { content := content, metadata := [], score := score, sub_query := "q" }

/-- A stored document with the given id and content. -/
def exDoc (s : String) : DocumentChunk := { id := s, content := s, metadata := [] }

/-- The score profile of the spec's worked example: 0.9, 0.5, 0.2. -/
def exResults : List SearchResult :=
  [⟨exDoc "a", 9/10⟩, ⟨exDoc "b", 1/2⟩, ⟨exDoc "c", 1/5⟩]

/-- A configuration whose static threshold 0.95 rejects all of exResults. -/
def exCfgStrict : RAGConfig := { similarity_threshold := 19/20 }

/-- A configuration with reflection (hence reranking) disabled and a top-k
of 1, to exhibit the missing truncation on the pass-through path. -/
def exCfgNoReflect : RAGConfig := { enable_reflection := false, rerank_top_k := 1 }

/-- A configuration with rerank top-k of 2. -/
def exCfgTop2 : RAGConfig := { rerank_top_k := 2 }

/-- A backend with the given id and health, returning empty results. -/
def exB (i : ℕ) (hl : Bool) : Backend :=
  { bid := i, healthy := hl, addOk := true, addResult := [], searchResult := [] }

/-- A state about to aggregate, with sub-queries but an empty results
mapping. -/
def exAggEmpty : GraphRAGState := { initState "q" none with sub_queries := ["a"] }

/-- A chunk whose content is 100 copies of the letter a followed by X. -/
def exLongA : RetrievedChunk :=
  { content := String.mk (List.replicate 100 'a') ++ "X", metadata := [],
    score := 1, sub_query := "s1" }

/-- A chunk agreeing with exLongA on the first 100 characters but
differing afterwards. -/
def exLongB : RetrievedChunk :=
  { content := String.mk (List.replicate 100 'a') ++ "Y", metadata := [],
    score := 2, sub_query := "s2" }

/-- A state about to aggregate two sub-query result lists containing a
cross-sub-query fingerprint duplicate. -/
def exAggState : GraphRAGState :=
  { initState "q" none with
    sub_queries := ["s1", "s2"]
    sub_query_results := [("s1", [exLongA]), ("s2", [exLongB, exChunk "z" 3])] }

/-- The default RAGConfig values from config.py. -/
def defaultCfg : RAGConfig := {}

/-- An oracle step in which every external call raises. -/
def envFail : Env := { llm := none, searchResp := none, web := none }

/-- A workflow state whose decomposition produced the same sub-query twice
and whose retrieval already recorded that sub-query as a key. -/
def dupState : GraphRAGState :=
  { initState "q" none with
    sub_queries := ["a", "a"]
    sub_query_results := [("a", [])] }

/-- The iteration-counter invariant carried along a run: the counter never
exceeds the configured maximum, and whenever the next node to execute is
refine_query the counter is still strictly below the maximum. -/
def IterInv (cfg : RAGConfig) (c : Node × GraphRAGState) : Prop :=
  c.2.iteration_count ≤ cfg.max_iterations ∧
    (c.1 = Node.refine_query → c.2.iteration_count < cfg.max_iterations)

/-! Theorems. -/

/-- C10: with reflection disabled, or an empty retrieved list, the rerank
node returns the retrieved chunks unchanged, in particular without
truncating to rerank_top_k. -/
theorem rerank_passthrough (cfg : RAGConfig) (resp : Option String)
    (chunks : List RetrievedChunk)
    (h : cfg.enable_reflection = false ∨ chunks = []) :
    Nodes.rerankCore cfg resp chunks = chunks := by
  rcases h with h | h <;> simp [Nodes.rerankCore, h]

/-- Witness for C10 at a concrete input: reflection disabled, two chunks,
rerank_top_k of 1; the output keeps both chunks, exceeding the top-k cap. -/
theorem rerank_passthrough_witness :
    (exCfgNoReflect.enable_reflection = false ∨
      ([exChunk "A" (9/10), exChunk "B" (1/2)] : List RetrievedChunk) = []) ∧
    Nodes.rerankCore exCfgNoReflect (some "1,2")
      [exChunk "A" (9/10), exChunk "B" (1/2)] = [exChunk "A" (9/10), exChunk "B" (1/2)] ∧
    exCfgNoReflect.rerank_top_k < 2 :=
  ⟨Or.inl rfl,
    rerank_passthrough exCfgNoReflect (some "1,2")
      [exChunk "A" (9/10), exChunk "B" (1/2)] (Or.inl rfl),
    by decide⟩

/-- C9: decompose always yields a non-empty sub-query list and resets the
per-sub-query results; an LLM failure, or a reply whose parse produces no
lines, falls back to the singleton holding the current query. -/
theorem decompose_nonempty_reset (resp : Option String) (s : GraphRAGState) :
    (Nodes.decompose_query resp s).sub_queries ≠ [] ∧
    (Nodes.decompose_query resp s).sub_query_results = [] ∧
    (resp = none → (Nodes.decompose_query resp s).sub_queries = [s.query]) ∧
    (∀ r, resp = some r → Nodes.parseSubQueries (Nodes.strTrim r) = [] →
      (Nodes.decompose_query resp s).sub_queries = [s.query]) := by
  cases resp with
  | none => simp [Nodes.decompose_query]
  | some r =>
      refine ⟨?_, by simp [Nodes.decompose_query], by simp, ?_⟩
      · by_cases h : Nodes.parseSubQueries (Nodes.strTrim r) = [] <;>
          simp [Nodes.decompose_query, h]
      · intro r' hr hp
        injection hr with hr
        subst hr
        simp [Nodes.decompose_query, hp]

/-- Witness for C9: a reply made only of enumeration markers parses to
zero lines, so decomposition falls back to the original query. -/
theorem decompose_nonempty_reset_witness :
    Nodes.parseSubQueries (Nodes.strTrim "1. \n2) ") = [] ∧
    (Nodes.decompose_query (some "1. \n2) ") (initState "原查询" none)).sub_queries =
      ["原查询"] :=
  ⟨by decide,
    (decompose_nonempty_reset (some "1. \n2) ") (initState "原查询" none)).2.2.2
      "1. \n2) " rfl (by decide)⟩

/-- C8: with reranking active, an LLM failure, or a reply containing no
valid in-range index, makes the rerank node return the retrieved chunks in
original order truncated to rerank_top_k; non-numeric tokens of a mixed
reply are ignored and out-of-range indices are discarded. -/
theorem rerank_invalid_reply_fallback (cfg : RAGConfig) (resp : Option String)
    (chunks : List RetrievedChunk) (henable : cfg.enable_reflection = true) :
    (resp = none → Nodes.rerankCore cfg resp chunks = chunks.take cfg.rerank_top_k) ∧
    (∀ r, resp = some r → Nodes.validIndices (Nodes.strTrim r) chunks.length = [] →
      Nodes.rerankCore cfg resp chunks = chunks.take cfg.rerank_top_k) ∧
    (∀ n, Nodes.validIndices "abc" n = []) ∧
    Nodes.validIndices "2, abc, 0, 7" 3 = [1] := by
  refine ⟨?_, ?_, ?_, by decide⟩
  · rintro rfl
    by_cases h : chunks = [] <;> simp [Nodes.rerankCore, h, henable]
  · rintro r rfl hv
    by_cases h : chunks = [] <;> simp [Nodes.rerankCore, h, henable, hv]
  · intro n
    have hp : Nodes.parsedIndices "abc" = [] := by decide
    simp [Nodes.validIndices, hp]

/-- Witness for C8: the literal malformed reply abc over two chunks falls
back to the original order truncated to the top-k. -/
theorem rerank_invalid_reply_fallback_witness :
    exCfgTop2.enable_reflection = true ∧
    Nodes.validIndices (Nodes.strTrim "abc")
      ([exChunk "A" (9/10), exChunk "B" (1/2)] : List RetrievedChunk).length = [] ∧
    Nodes.rerankCore exCfgTop2 (some "abc") [exChunk "A" (9/10), exChunk "B" (1/2)] =
      ([exChunk "A" (9/10), exChunk "B" (1/2)]).take exCfgTop2.rerank_top_k :=
  ⟨rfl, by decide,
    (rerank_invalid_reply_fallback exCfgTop2 (some "abc")
        [exChunk "A" (9/10), exChunk "B" (1/2)] rfl).2.1 "abc" rfl (by decide)⟩

/-- The running fold of max over scores dominates the accumulator and
every listed score. -/
lemma foldlMax_le (l : List SearchResult) (acc : ℚ) :
    acc ≤ l.foldl (fun a x => max a x.score) acc ∧
    ∀ r ∈ l, r.score ≤ l.foldl (fun a x => max a x.score) acc := by
  induction l generalizing acc with
  | nil => simp
  | cons x xs ih =>
      refine ⟨le_trans (le_max_left _ _) (ih (max acc x.score)).1, ?_⟩
      intro r hr
      rcases List.mem_cons.mp hr with rfl | hr
      · exact le_trans (le_max_right _ _) (ih (max acc r.score)).1
      · exact (ih (max acc x.score)).2 r hr

/-- The running fold of max over scores is the accumulator or one of the
listed scores. -/
lemma foldlMax_eq (l : List SearchResult) (acc : ℚ) :
    l.foldl (fun a x => max a x.score) acc = acc ∨
    ∃ r ∈ l, l.foldl (fun a x => max a x.score) acc = r.score := by
  induction l generalizing acc with
  | nil => simp
  | cons x xs ih =>
      rcases ih (max acc x.score) with h | ⟨r, hr, h⟩
      · rcases max_choice acc x.score with h2 | h2
        · left
          simpa [h2] using h
        · right
          exact ⟨x, List.mem_cons_self x xs, by simpa [h2] using h⟩
      · right
        exact ⟨r, List.mem_cons_of_mem x hr, h⟩

/-- maxScore dominates every score of the list. -/
lemma le_maxScore (results : List SearchResult) :
    ∀ r ∈ results, r.score ≤ Nodes.maxScore results := by
  cases results with
  | nil => simp
  | cons x xs =>
      intro r hr
      rcases List.mem_cons.mp hr with rfl | hr
      · exact (foldlMax_le xs r.score).1
      · exact (foldlMax_le xs x.score).2 r hr

/-- On a non-empty list, maxScore is attained by one of the hits. -/
lemma maxScore_mem (results : List SearchResult) (h : results ≠ []) :
    ∃ r ∈ results, Nodes.maxScore results = r.score := by
  cases results with
  | nil => exact absurd rfl h
  | cons x xs =>
      rcases foldlMax_eq xs x.score with h2 | ⟨r, hr, h2⟩
      · exact ⟨x, List.mem_cons_self x xs, h2⟩
      · exact ⟨r, List.mem_cons_of_mem x hr, h2⟩

/-- Membership in the static filter: exactly the conversions of the hits
reaching the threshold. -/
lemma mem_thresholdFilter (results : List SearchResult) (t : ℚ) (subq : String)
    (c : RetrievedChunk) :
    c ∈ Nodes.thresholdFilter results t subq ↔
    ∃ r ∈ results, t ≤ r.score ∧
      c = { content := r.chunk.content, metadata := r.chunk.metadata,
            score := r.score, sub_query := subq } := by
  simp only [Nodes.thresholdFilter, List.mem_map, List.mem_filter, decide_eq_true_eq]
  constructor
  · rintro ⟨r, ⟨hr, ht⟩, rfl⟩
    exact ⟨r, hr, ht, rfl⟩
  · rintro ⟨r, hr, ht, rfl⟩
    exact ⟨r, ⟨hr, ht⟩, rfl⟩

/-- When the static filter keeps at least one hit, retrieve returns
exactly the statically filtered list. -/
lemma retrieveChunks_static (cfg : RAGConfig) (results : List SearchResult)
    (subq : String)
    (h : Nodes.thresholdFilter results cfg.similarity_threshold subq ≠ []) :
    Nodes.retrieveChunks cfg results subq =
      Nodes.thresholdFilter results cfg.similarity_threshold subq := by
  simp only [Nodes.retrieveChunks]
  rw [if_neg]
  rintro ⟨h0, -⟩
  exact h (List.length_eq_zero.mp h0)

/-- When the static filter keeps nothing but hits were returned, retrieve
returns the hits re-filtered at the dynamic threshold. -/
lemma retrieveChunks_dynamic (cfg : RAGConfig) (results : List SearchResult)
    (subq : String)
    (h : Nodes.thresholdFilter results cfg.similarity_threshold subq = [])
    (hne : results ≠ []) :
    Nodes.retrieveChunks cfg results subq =
      Nodes.thresholdFilter results (Nodes.dynamicThreshold results) subq := by
  simp only [Nodes.retrieveChunks]
  rw [if_pos ⟨by rw [h]; rfl, List.length_pos.mpr hne⟩, h, List.nil_append]

/-- C3: hits survive the static filter iff their score reaches the
similarity threshold; when the static filter keeps nothing while the
backend returned hits, all hits are re-filtered against the relaxed
threshold max of bestScore times 0.75 and 0.3, where bestScore is the
maximum returned score. -/
theorem retrieve_dynamic_threshold (cfg : RAGConfig)
    (results : List SearchResult) (subq : String) :
    (∀ r ∈ results, (cfg.similarity_threshold ≤ r.score ↔
        ∃ c ∈ Nodes.thresholdFilter results cfg.similarity_threshold subq,
          c.content = r.chunk.content ∧ c.score = r.score)) ∧
    (Nodes.thresholdFilter results cfg.similarity_threshold subq ≠ [] →
      Nodes.retrieveChunks cfg results subq =
        Nodes.thresholdFilter results cfg.similarity_threshold subq) ∧
    (Nodes.thresholdFilter results cfg.similarity_threshold subq = [] → results ≠ [] →
      Nodes.retrieveChunks cfg results subq =
        Nodes.thresholdFilter results
          (max (Nodes.maxScore results * (3/4)) (3/10)) subq) ∧
    (∀ r ∈ results, r.score ≤ Nodes.maxScore results) ∧
    (results ≠ [] → ∃ r ∈ results, Nodes.maxScore results = r.score) := by
  refine ⟨?_, retrieveChunks_static cfg results subq,
    fun h hne => retrieveChunks_dynamic cfg results subq h hne,
    le_maxScore results, maxScore_mem results⟩
  intro r hr
  constructor
  · intro ht
    exact ⟨_, (mem_thresholdFilter results _ subq _).mpr ⟨r, hr, ht, rfl⟩, rfl, rfl⟩
  · rintro ⟨c, hc, -, hsc⟩
    obtain ⟨r', hr', ht', rfl⟩ := (mem_thresholdFilter results _ subq c).mp hc
    simp only at hsc
    rw [← hsc]
    exact ht'

/-- Witness for C3, the spec's worked example: scores 0.9, 0.5, 0.2 with
static threshold 0.95 keep nothing, the relaxed threshold is 0.675, and
exactly the 0.9-scored hit survives. -/
theorem retrieve_dynamic_threshold_witness :
    Nodes.thresholdFilter exResults exCfgStrict.similarity_threshold "q" = [] ∧
    exResults ≠ [] ∧
    Nodes.retrieveChunks exCfgStrict exResults "q" =
      Nodes.thresholdFilter exResults
        (max (Nodes.maxScore exResults * (3/4)) (3/10)) "q" ∧
    max (Nodes.maxScore exResults * (3/4)) (3/10) = 27/40 ∧
    Nodes.retrieveChunks exCfgStrict exResults "q" =
      [{ content := "a", metadata := [], score := 9/10, sub_query := "q" }] := by
  have h1 : Nodes.thresholdFilter exResults exCfgStrict.similarity_threshold "q" = [] := by
    norm_num [Nodes.thresholdFilter, exResults, exDoc, exCfgStrict]
  refine ⟨h1, by simp [exResults],
    (retrieve_dynamic_threshold exCfgStrict exResults "q").2.2.1 h1 (by simp [exResults]),
    by norm_num [Nodes.maxScore, exResults], ?_⟩
  norm_num [Nodes.retrieveChunks, Nodes.thresholdFilter, Nodes.dynamicThreshold,
    Nodes.maxScore, exResults, exDoc, exCfgStrict]

/-- C5: each HA-store operation is served by the current store when it is
healthy; otherwise by the first healthy backup (which becomes current);
otherwise by the re-checked primary (which becomes current); and when the
primary and every backup are unhealthy the operation fails and no store
serves it. -/
theorem ha_failover_routing (h : HAStore) :
    (h.current.healthy = true → getAvailableStore h = some (h.current, h)) ∧
    (h.current.healthy = false →
      ∀ b, h.backups.find? (fun b => b.healthy) = some b →
        getAvailableStore h = some (b, { h with current := b })) ∧
    (h.current.healthy = false → h.backups.find? (fun b => b.healthy) = none →
      h.primary.healthy = true →
        getAvailableStore h = some (h.primary, { h with current := h.primary })) ∧
    (h.current.healthy = false → (∀ b ∈ h.backups, b.healthy = false) →
      h.primary.healthy = false → getAvailableStore h = none) ∧
    (∀ st h', getAvailableStore h = some (st, h') →
      haSearch h = some (st.searchResult, h') ∧
      haAddDocuments h = some (st.addResult, h',
        st.bid :: (h.backups.filter (fun b => b.healthy)).map (fun b => b.bid)) ∧
      haDelete h = some (st.deleteResult, h') ∧
      haGetCollectionInfo h = some (st.collectionInfo, h')) ∧
    (getAvailableStore h = none →
      haSearch h = none ∧ haAddDocuments h = none ∧ haDelete h = none ∧
      haGetCollectionInfo h = none) := by
  refine ⟨?_, ?_, ?_, ?_, ?_, ?_⟩
  · intro hc
    simp [getAvailableStore, hc]
  · intro hc b hb
    simp [getAvailableStore, hc, hb]
  · intro hc hb hp
    simp [getAvailableStore, hc, hb, hp]
  · intro hc hb hp
    have hfind : h.backups.find? (fun b => b.healthy) = none :=
      List.find?_eq_none.mpr (fun x hx => by simp [hb x hx])
    simp [getAvailableStore, hc, hfind, hp]
  · intro st h' hget
    simp [haSearch, haAddDocuments, haDelete, haGetCollectionInfo, hget]
  · intro hget
    simp [haSearch, haAddDocuments, haDelete, haGetCollectionInfo, hget]

/-- Witness for C5: primary and first backup down, second backup healthy;
the search is served by the second backup and current switches to it. -/
theorem ha_failover_routing_witness :
    (mkHAStore (exB 0 false) [exB 1 false, exB 2 true]).current.healthy = false ∧
    (mkHAStore (exB 0 false) [exB 1 false, exB 2 true]).backups.find?
      (fun b => b.healthy) = some (exB 2 true) ∧
    getAvailableStore (mkHAStore (exB 0 false) [exB 1 false, exB 2 true]) =
      some (exB 2 true,
        { mkHAStore (exB 0 false) [exB 1 false, exB 2 true] with current := exB 2 true }) ∧
    haSearch (mkHAStore (exB 0 false) [exB 1 false, exB 2 true]) =
      some ((exB 2 true).searchResult,
        { mkHAStore (exB 0 false) [exB 1 false, exB 2 true] with current := exB 2 true }) := by
  have h2 := (ha_failover_routing (mkHAStore (exB 0 false) [exB 1 false, exB 2 true])).2.1
    (by decide) (exB 2 true) (by decide)
  refine ⟨by decide, by decide, h2, ?_⟩
  exact ((ha_failover_routing (mkHAStore (exB 0 false) [exB 1 false, exB 2 true])).2.2.2.2.1
    (exB 2 true) _ h2).1

/-- Counterexample to C6: with the primary unhealthy and one healthy
backup, the backup serves the write and the replication loop then writes
to the same backup again — its id appears twice in the invocation
trace, and the claim's no-store-twice property fails. -/
theorem ha_add_documents_double_write :
    haAddDocuments (mkHAStore (exB 0 false) [exB 1 true]) =
      some ((exB 1 true).addResult,
        { mkHAStore (exB 0 false) [exB 1 true] with current := exB 1 true },
        [1, 1]) ∧
    List.count 1 [1, 1] = 2 := by
  refine ⟨?_, by decide⟩
  simp [haAddDocuments, getAvailableStore, mkHAStore, exB]

/-- C6 as amended: the write is executed against the store the failover
routine selects and the returned id list is exactly that store's; a
replication write is then attempted to every healthy backup — including
the serving store itself when a backup served the write, which therefore
receives the batch twice — and never to a store outside the backup list
(in particular never to the primary when it is not also a backup);
replication failures do not affect the returned ids. -/
theorem ha_add_documents_replication (h : HAStore) (st : Backend) (h' : HAStore)
    (hget : getAvailableStore h = some (st, h')) :
    ∃ repl, haAddDocuments h = some (st.addResult, h', st.bid :: repl) ∧
      repl = (h.backups.filter (fun b => b.healthy)).map (fun b => b.bid) ∧
      (∀ b ∈ h.backups, b.healthy = true → b.bid ∈ repl) ∧
      (∀ i ∈ repl, ∃ b ∈ h.backups, b.healthy = true ∧ b.bid = i) := by
  refine ⟨(h.backups.filter (fun b => b.healthy)).map (fun b => b.bid),
    by simp [haAddDocuments, hget], rfl, ?_, ?_⟩
  · intro b hb hbh
    exact List.mem_map.mpr ⟨b, List.mem_filter.mpr ⟨hb, by simp [hbh]⟩, rfl⟩
  · intro i hi
    rcases List.mem_map.mp hi with ⟨b, hb, rfl⟩
    rcases List.mem_filter.mp hb with ⟨hb, hbh⟩
    exact ⟨b, hb, by simpa using hbh, rfl⟩

/-- Witness for the amended C6 at the double-write scenario: the healthy
backup both serves the write and is the sole replication target. -/
theorem ha_add_documents_replication_witness :
    getAvailableStore (mkHAStore (exB 0 false) [exB 1 true]) =
      some (exB 1 true,
        { mkHAStore (exB 0 false) [exB 1 true] with current := exB 1 true }) ∧
    ∃ repl, haAddDocuments (mkHAStore (exB 0 false) [exB 1 true]) =
        some ((exB 1 true).addResult,
          { mkHAStore (exB 0 false) [exB 1 true] with current := exB 1 true },
          (exB 1 true).bid :: repl) ∧
      repl = ((mkHAStore (exB 0 false) [exB 1 true]).backups.filter
        (fun b => b.healthy)).map (fun b => b.bid) ∧
      (∀ b ∈ (mkHAStore (exB 0 false) [exB 1 true]).backups,
        b.healthy = true → b.bid ∈ repl) ∧
      (∀ i ∈ repl, ∃ b ∈ (mkHAStore (exB 0 false) [exB 1 true]).backups,
        b.healthy = true ∧ b.bid = i) :=
  ⟨by decide,
    ha_add_documents_replication (mkHAStore (exB 0 false) [exB 1 true])
      (exB 1 true)
      { mkHAStore (exB 0 false) [exB 1 true] with current := exB 1 true }
      (by decide)⟩

/-- The deduplicated list is a sublist of the input: survivors keep their
first-seen relative order and every survivor comes from the input. -/
lemma dedupChunks_sublist (l : List RetrievedChunk) (seen : List String) :
    (Nodes.dedupChunks l seen).Sublist l := by
  induction l generalizing seen with
  | nil => simp [Nodes.dedupChunks]
  | cons c cs ih =>
      by_cases h : Nodes.fingerprint c ∈ seen
      · simp only [Nodes.dedupChunks, if_pos h]
        exact List.Sublist.cons c (ih seen)
      · simp only [Nodes.dedupChunks, if_neg h]
        exact List.Sublist.cons₂ c (ih _)

/-- No survivor carries a fingerprint from the seen accumulator. -/
lemma dedupChunks_not_seen (l : List RetrievedChunk) (seen : List String) :
    ∀ c ∈ Nodes.dedupChunks l seen, Nodes.fingerprint c ∉ seen := by
  induction l generalizing seen with
  | nil => simp [Nodes.dedupChunks]
  | cons c cs ih =>
      by_cases h : Nodes.fingerprint c ∈ seen
      · simpa only [Nodes.dedupChunks, if_pos h] using ih seen
      · simp only [Nodes.dedupChunks, if_neg h]
        intro x hx
        rcases List.mem_cons.mp hx with rfl | hx
        · exact h
        · intro hxs
          exact ih (Nodes.fingerprint c :: seen) x hx (List.mem_cons_of_mem _ hxs)

/-- Survivors have pairwise distinct fingerprints. -/
lemma dedupChunks_fingerprint_nodup (l : List RetrievedChunk) (seen : List String) :
    ((Nodes.dedupChunks l seen).map Nodes.fingerprint).Nodup := by
  induction l generalizing seen with
  | nil => simp [Nodes.dedupChunks]
  | cons c cs ih =>
      by_cases h : Nodes.fingerprint c ∈ seen
      · simpa only [Nodes.dedupChunks, if_pos h] using ih seen
      · simp only [Nodes.dedupChunks, if_neg h, List.map_cons]
        refine List.nodup_cons.mpr ⟨?_, ih _⟩
        intro hmem
        rcases List.mem_map.mp hmem with ⟨x, hx, hfx⟩
        exact dedupChunks_not_seen cs _ x hx (by rw [hfx]; exact List.mem_cons_self _ _)

/-- Every input chunk is represented: its fingerprint was already seen or
some survivor shares it. -/
lemma dedupChunks_covers (l : List RetrievedChunk) (seen : List String) :
    ∀ c ∈ l, Nodes.fingerprint c ∈ seen ∨
      ∃ c' ∈ Nodes.dedupChunks l seen,
        Nodes.fingerprint c' = Nodes.fingerprint c := by
  induction l generalizing seen with
  | nil => simp
  | cons c0 cs ih =>
      intro c hc
      by_cases h : Nodes.fingerprint c0 ∈ seen
      · simp only [Nodes.dedupChunks, if_pos h]
        rcases List.mem_cons.mp hc with rfl | hc
        · exact Or.inl h
        · exact ih seen c hc
      · simp only [Nodes.dedupChunks, if_neg h]
        rcases List.mem_cons.mp hc with rfl | hc
        · exact Or.inr ⟨c, List.mem_cons_self _ _, rfl⟩
        · rcases ih (Nodes.fingerprint c0 :: seen) c hc with hmem | ⟨c', hc', he⟩
          · rcases List.mem_cons.mp hmem with heq | hmem
            · exact Or.inr ⟨c0, List.mem_cons_self _ _, heq.symm⟩
            · exact Or.inl hmem
          · exact Or.inr ⟨c', List.mem_cons_of_mem _ hc', he⟩

/-- Each survivor is the first input chunk carrying its fingerprint. -/
lemma dedupChunks_first (l : List RetrievedChunk) (seen : List String) :
    ∀ c' ∈ Nodes.dedupChunks l seen,
      l.find? (fun c => decide (Nodes.fingerprint c = Nodes.fingerprint c')) =
        some c' := by
  induction l generalizing seen with
  | nil => simp [Nodes.dedupChunks]
  | cons c0 cs ih =>
      intro c' hc'
      by_cases h : Nodes.fingerprint c0 ∈ seen
      · simp only [Nodes.dedupChunks, if_pos h] at hc'
        have hne : Nodes.fingerprint c0 ≠ Nodes.fingerprint c' := by
          intro he
          exact dedupChunks_not_seen cs seen c' hc' (he ▸ h)
        rw [List.find?_cons_of_neg _ (by simp [hne])]
        exact ih seen c' hc'
      · simp only [Nodes.dedupChunks, if_neg h] at hc'
        rcases List.mem_cons.mp hc' with rfl | hc'
        · exact List.find?_cons_of_pos _ (by simp)
        · have hni := dedupChunks_not_seen cs (Nodes.fingerprint c0 :: seen) c' hc'
          have hne : Nodes.fingerprint c0 ≠ Nodes.fingerprint c' := by
            intro he
            exact hni (he ▸ List.mem_cons_self _ _)
          rw [List.find?_cons_of_neg _ (by simp [hne])]
          exact ih _ c' hc'

/-- Counterexample to C4: on the empty sub_query_results mapping the
aggregate node returns an empty update — the state is unchanged and
use_web_search is not set to true although zero chunks survive. -/
theorem aggregate_empty_mapping_counterexample :
    exAggEmpty.sub_query_results = [] ∧
    Nodes.aggregate_results exAggEmpty = exAggEmpty ∧
    (Nodes.aggregate_results exAggEmpty).use_web_search = false ∧
    ((exAggEmpty.sub_query_results.map Prod.snd).flatten).length = 0 := by
  refine ⟨rfl, ?_, ?_, rfl⟩ <;> simp [Nodes.aggregate_results, exAggEmpty, initState]

/-- C4 as amended: whenever the sub-query list and the results mapping are
both non-empty (as they always are when the router dispatches to
aggregate), the node flattens all result lists in mapping order,
deduplicates by the first-100-character fingerprint keeping the first-seen
occurrence in first-seen order, and sets use_web_search exactly when no
chunk survives; on an empty mapping the node leaves the state unchanged. -/
theorem aggregate_dedup (s : GraphRAGState)
    (hq : s.sub_queries ≠ []) (hr : s.sub_query_results ≠ []) :
    ((Nodes.aggregate_results s).retrieved_chunks).Sublist
      ((s.sub_query_results.map Prod.snd).flatten) ∧
    (((Nodes.aggregate_results s).retrieved_chunks).map Nodes.fingerprint).Nodup ∧
    (∀ c ∈ (s.sub_query_results.map Prod.snd).flatten,
      ∃ c' ∈ (Nodes.aggregate_results s).retrieved_chunks,
        Nodes.fingerprint c' = Nodes.fingerprint c) ∧
    (∀ c' ∈ (Nodes.aggregate_results s).retrieved_chunks,
      ((s.sub_query_results.map Prod.snd).flatten).find?
        (fun c => decide (Nodes.fingerprint c = Nodes.fingerprint c')) = some c') ∧
    ((Nodes.aggregate_results s).use_web_search = true ↔
      (Nodes.aggregate_results s).retrieved_chunks = []) := by
  have hcond : ¬ (s.sub_queries = [] ∨ s.sub_query_results = []) := by
    simp [hq, hr]
  simp only [Nodes.aggregate_results, if_neg hcond]
  refine ⟨dedupChunks_sublist _ [], dedupChunks_fingerprint_nodup _ [], ?_, ?_, ?_⟩
  · intro c hc
    rcases dedupChunks_covers ((s.sub_query_results.map Prod.snd).flatten) [] c hc with
      hmem | hex
    · exact absurd hmem (List.not_mem_nil _)
    · exact hex
  · exact dedupChunks_first _ []
  · simp [List.length_eq_zero]

/-- Witness for the amended C4: two chunks sharing their first 100
characters but differing afterwards are deduplicated to the first one,
first-seen order survives across sub-queries, and use_web_search stays
false because a chunk survived. -/
theorem aggregate_dedup_witness :
    exAggState.sub_queries ≠ [] ∧ exAggState.sub_query_results ≠ [] ∧
    Nodes.fingerprint exLongA = Nodes.fingerprint exLongB ∧
    exLongA ≠ exLongB ∧
    (Nodes.aggregate_results exAggState).retrieved_chunks =
      [exLongA, exChunk "z" 3] ∧
    (((Nodes.aggregate_results exAggState).retrieved_chunks).map
      Nodes.fingerprint).Nodup ∧
    ((Nodes.aggregate_results exAggState).use_web_search = true ↔
      (Nodes.aggregate_results exAggState).retrieved_chunks = []) :=
  ⟨by decide, by decide, by decide, by decide, by decide,
    (aggregate_dedup exAggState (by decide) (by decide)).2.1,
    (aggregate_dedup exAggState (by decide) (by decide)).2.2.2.2⟩

/-- filterMap collapses to map when the function is total on the list. -/
lemma filterMap_eq_map_of_some {α β : Type} (f : α → Option β) (g : α → β)
    (l : List α) (h : ∀ a ∈ l, f a = some (g a)) : l.filterMap f = l.map g := by
  induction l with
  | nil => rfl
  | cons x xs ih =>
      rw [List.filterMap_cons, h x (List.mem_cons_self _ _), List.map_cons,
        ih (fun a ha => h a (List.mem_cons_of_mem _ ha))]

/-- Indexing a list over the range of its length reproduces the list. -/
lemma map_getD_range {α : Type} [Inhabited α] (l : List α) :
    (List.range l.length).map (fun i => l.getD i default) = l := by
  induction l with
  | nil => rfl
  | cons x xs ih =>
      rw [List.length_cons, List.range_succ_eq_map, List.map_cons, List.map_map]
      simp only [Function.comp_def, List.getD_cons_zero, List.getD_cons_succ]
      rw [ih]

/-- Every index kept by validIndices is in range. -/
lemma validIndices_lt (response : String) (n : ℕ) :
    ∀ i ∈ Nodes.validIndices response n, i < n := by
  intro i hi
  simp only [Nodes.validIndices, List.mem_filterMap] at hi
  rcases hi with ⟨v, -, hv⟩
  split at hv
  · next h =>
      injection hv with hv
      exact hv ▸ h.2
  · exact absurd hv (by simp)

/-- A duplicate-free in-range index list followed by the unranked rest of
the range is a permutation of the whole range. -/
lemma valid_remaining_perm (valid : List ℕ) (n : ℕ) (hnd : valid.Nodup)
    (hlt : ∀ i ∈ valid, i < n) :
    (valid ++ (List.range n).filter (fun i => i ∉ valid)).Perm (List.range n) := by
  have h1 : valid.Perm ((List.range n).filter (fun i => i ∈ valid)) := by
    refine List.perm_of_nodup_nodup_toFinset_eq hnd
      (List.Nodup.filter _ (List.nodup_range n)) ?_
    ext a
    simp only [List.mem_toFinset, List.mem_filter, List.mem_range,
      decide_eq_true_eq]
    exact ⟨fun ha => ⟨hlt a ha, ha⟩, fun ha => ha.2⟩
  have hre : (List.range n).filter (fun i => i ∉ valid) =
      (List.range n).filter (fun x => !(decide (x ∈ valid))) := by
    simp only [decide_not]
  refine (List.Perm.append h1 (List.Perm.refl _)).trans ?_
  rw [hre]
  exact List.filter_append_perm (fun i => decide (i ∈ valid)) (List.range n)

/-- Counterexample to C7: the reply repeating index 1 makes the first
retrieved chunk appear twice among the returned reranked chunks, so a
retrieved chunk occurs more often in the output than in the input and the
output is not a permutation of a subset of the input. -/
theorem rerank_duplicate_index_counterexample :
    Nodes.rerankCore exCfgTop2 (some "1,1") [exChunk "A" 1, exChunk "B" 2] =
      [exChunk "A" 1, exChunk "A" 1] ∧
    List.count (exChunk "A" 1) [exChunk "A" 1, exChunk "A" 1] = 2 ∧
    List.count (exChunk "A" 1) [exChunk "A" 1, exChunk "B" 2] = 1 :=
  ⟨by decide, by decide, by decide⟩

/-- C7 as amended: when reflection is enabled and the valid parsed indices
of the LLM reply are pairwise distinct (in particular on every reply with
no repeated index, and on LLM failure), the rerank node returns a prefix of
a permutation of the retrieved chunks truncated to rerank_top_k — each
retrieved chunk appears at most once and nothing else appears; a reply
repeating an index instead repeats the corresponding chunk. -/
theorem rerank_perm_truncation (cfg : RAGConfig) (resp : Option String)
    (chunks : List RetrievedChunk) (henable : cfg.enable_reflection = true)
    (hnd : ∀ r, resp = some r →
      (Nodes.validIndices (Nodes.strTrim r) chunks.length).Nodup) :
    ∃ l : List RetrievedChunk, List.Perm l chunks ∧
      Nodes.rerankCore cfg resp chunks = l.take cfg.rerank_top_k := by
  by_cases hc : chunks = []
  · exact ⟨[], by simp [hc], by simp [Nodes.rerankCore, hc]⟩
  cases resp with
  | none =>
      exact ⟨chunks, List.Perm.refl _, by simp [Nodes.rerankCore, hc, henable]⟩
  | some r =>
      by_cases hve : Nodes.validIndices (Nodes.strTrim r) chunks.length = []
      · exact ⟨chunks, List.Perm.refl _,
          by simp [Nodes.rerankCore, hc, henable, hve]⟩
      · have hlt := validIndices_lt (Nodes.strTrim r) chunks.length
        have hmap : ∀ (L : List ℕ), (∀ i ∈ L, i < chunks.length) →
            L.filterMap (fun i => chunks[i]?) =
              L.map (fun i => chunks.getD i default) := by
          intro L hL
          refine filterMap_eq_map_of_some _ _ L (fun a ha => ?_)
          rw [List.getElem?_eq_getElem (hL a ha), List.getD_eq_getElem _ _ (hL a ha)]
        have hrem : ∀ i ∈ (List.range chunks.length).filter
            (fun i => i ∉ Nodes.validIndices (Nodes.strTrim r) chunks.length),
            i < chunks.length := by
          intro i hi
          exact List.mem_range.mp (List.mem_filter.mp hi).1
        refine ⟨((Nodes.validIndices (Nodes.strTrim r) chunks.length).filterMap
            (fun i => chunks[i]?)) ++
          (((List.range chunks.length).filter
            (fun i => i ∉ Nodes.validIndices (Nodes.strTrim r) chunks.length)).filterMap
            (fun i => chunks[i]?)), ?_, ?_⟩
        · rw [hmap _ hlt, hmap _ hrem, ← List.map_append]
          have hperm := (valid_remaining_perm _ chunks.length (hnd r rfl) hlt).map
            (fun i => chunks.getD i default)
          rw [map_getD_range chunks] at hperm
          exact hperm
        · simp [Nodes.rerankCore, hc, henable, hve]

/-- Witness for the amended C7: reply 3,1 over three chunks yields the
third then the first chunk, truncated to top-k 2 — a prefix of a
permutation. -/
theorem rerank_perm_truncation_witness :
    exCfgTop2.enable_reflection = true ∧
    (Nodes.validIndices (Nodes.strTrim "3,1")
      ([exChunk "A" 1, exChunk "B" 2, exChunk "C" 3] : List RetrievedChunk).length).Nodup ∧
    ∃ l : List RetrievedChunk, List.Perm l [exChunk "A" 1, exChunk "B" 2, exChunk "C" 3] ∧
      Nodes.rerankCore exCfgTop2 (some "3,1")
        [exChunk "A" 1, exChunk "B" 2, exChunk "C" 3] = l.take exCfgTop2.rerank_top_k :=
  ⟨rfl, by decide,
    rerank_perm_truncation exCfgTop2 (some "3,1")
      [exChunk "A" 1, exChunk "B" 2, exChunk "C" 3] rfl
      (fun r hr => by
        injection hr with hr
        rw [← hr]
        decide)⟩

/-- aggregate_results never touches the iteration counter. -/
lemma aggregate_results_count (s : GraphRAGState) :
    (Nodes.aggregate_results s).iteration_count = s.iteration_count := by
  unfold Nodes.aggregate_results
  split <;> rfl

/-- aggregate_results never touches the sub-query list. -/
lemma aggregate_results_sub_queries (s : GraphRAGState) :
    (Nodes.aggregate_results s).sub_queries = s.sub_queries := by
  unfold Nodes.aggregate_results
  split <;> rfl

/-- aggregate_results never touches the results mapping. -/
lemma aggregate_results_sub_query_results (s : GraphRAGState) :
    (Nodes.aggregate_results s).sub_query_results = s.sub_query_results := by
  unfold Nodes.aggregate_results
  split <;> rfl

/-- The shared retrieve body never touches the iteration counter. -/
lemma retrieveBody_count (cfg : RAGConfig) (r : Option (List SearchResult))
    (s : GraphRAGState) (current : String) :
    (Nodes.retrieveBody cfg r s current).iteration_count = s.iteration_count := by
  simp only [Nodes.retrieveBody]
  split
  · split <;> rfl
  · split
    · rfl
    · split
      · rw [aggregate_results_count]
      · rfl

/-- The retrieve node never touches the iteration counter. -/
lemma retrieve_count (cfg : RAGConfig) (r : Option (List SearchResult))
    (s : GraphRAGState) :
    (Nodes.retrieve cfg r s).iteration_count = s.iteration_count := by
  unfold Nodes.retrieve
  split
  · split
    · rw [aggregate_results_count]
    · rw [retrieveBody_count]
  · rw [retrieveBody_count]

/-- decompose never touches the iteration counter. -/
lemma decompose_count (resp : Option String) (s : GraphRAGState) :
    (Nodes.decompose_query resp s).iteration_count = s.iteration_count := by
  cases resp <;> rfl

/-- web_search never touches the iteration counter. -/
lemma web_search_count (resp : Option (List WebResult)) (s : GraphRAGState) :
    (Nodes.web_search resp s).iteration_count = s.iteration_count := by
  unfold Nodes.web_search
  split
  · rfl
  · cases resp <;> rfl

/-- reflect never touches the iteration counter. -/
lemma reflect_count (cfg : RAGConfig) (resp : Option String) (s : GraphRAGState) :
    (Nodes.reflect cfg resp s).iteration_count = s.iteration_count := by
  unfold Nodes.reflect
  split
  · rfl
  · cases resp <;> rfl

/-- generate_answer never touches the iteration counter. -/
lemma generate_count (resp : Option String) (s : GraphRAGState) :
    (Nodes.generate_answer resp s).iteration_count = s.iteration_count := by
  cases resp <;> rfl

/-- refine_query increments the iteration counter by exactly one, on the
success path and on the failure path alike. -/
lemma refine_count (resp : Option String) (s : GraphRAGState) :
    (Nodes.refine_query resp s).iteration_count = s.iteration_count + 1 := by
  cases resp <;> rfl

/-- Executing any node other than refine_query leaves the counter
unchanged. -/
lemma runNode_count_of_ne (cfg : RAGConfig) (e : Env) (n : Node)
    (s : GraphRAGState) (h : n ≠ Node.refine_query) :
    (runNode cfg e n s).iteration_count = s.iteration_count := by
  cases n with
  | decompose_query => exact decompose_count e.llm s
  | retrieve => exact retrieve_count cfg e.searchResp s
  | aggregate_results => exact aggregate_results_count s
  | rerank => rfl
  | web_search => exact web_search_count e.web s
  | reflect => exact reflect_count cfg e.llm s
  | refine_query => exact absurd rfl h
  | generate_answer => exact generate_count e.llm s

/-- No node execution ever lowers the iteration counter. -/
lemma runNode_count_mono (cfg : RAGConfig) (e : Env) (n : Node)
    (s : GraphRAGState) :
    s.iteration_count ≤ (runNode cfg e n s).iteration_count := by
  by_cases h : n = Node.refine_query
  · subst h
    rw [show runNode cfg e Node.refine_query s = Nodes.refine_query e.llm s from rfl,
      refine_count]
    exact Nat.le_succ _
  · rw [runNode_count_of_ne cfg e n s h]

/-- should_continue_retrieve never routes to refine_query. -/
lemma should_continue_retrieve_ne_refine (s : GraphRAGState) :
    should_continue_retrieve s ≠ Node.refine_query := by
  unfold should_continue_retrieve
  split
  · simp
  · split
    · simp
    · split
      · split <;> simp
      · simp

/-- The reflect router sends the run to refine_query only while the
counter is strictly below the maximum. -/
lemma should_continue_reflection_refine (cfg : RAGConfig) (s : GraphRAGState)
    (h : should_continue_reflection cfg s = Node.refine_query) :
    s.iteration_count < cfg.max_iterations := by
  unfold should_continue_reflection at h
  split at h
  · next hc => exact hc.2
  · exact absurd h (by simp)

/-- Whenever the router chooses refine_query as the next node, the state
it inspected has its counter strictly below the maximum. -/
lemma nextNode_refine (cfg : RAGConfig) (n : Node) (s' : GraphRAGState)
    (h : nextNode cfg n s' = some Node.refine_query) :
    s'.iteration_count < cfg.max_iterations := by
  cases n with
  | decompose_query => simp [nextNode] at h
  | retrieve =>
      simp only [nextNode, Option.some.injEq] at h
      exact absurd h (should_continue_retrieve_ne_refine s')
  | aggregate_results =>
      simp only [nextNode, Option.some.injEq] at h
      unfold rerank_or_web_search at h
      split at h <;> simp at h
  | rerank => simp [nextNode] at h
  | web_search => simp [nextNode] at h
  | reflect =>
      simp only [nextNode, Option.some.injEq] at h
      exact should_continue_reflection_refine cfg s' h
  | refine_query => simp [nextNode] at h
  | generate_answer => simp [nextNode] at h

/-- One interpreter step preserves the iteration invariant and never
lowers the counter. -/
lemma step_inv (cfg : RAGConfig) (e : Env) (c c' : Node × GraphRAGState)
    (hinv : IterInv cfg c) (hstep : step cfg e c = some c') :
    IterInv cfg c' ∧ c.2.iteration_count ≤ c'.2.iteration_count := by
  obtain ⟨n, s⟩ := c
  obtain ⟨n', s'⟩ := c'
  simp only [step, Option.map_eq_some'] at hstep
  rcases hstep with ⟨m, hm, hpair⟩
  injection hpair with hn hs
  subst hn
  subst hs
  have hbound : (runNode cfg e n s).iteration_count ≤ cfg.max_iterations := by
    by_cases h : n = Node.refine_query
    · subst h
      rw [show runNode cfg e Node.refine_query s = Nodes.refine_query e.llm s from rfl,
        refine_count]
      exact hinv.2 rfl
    · rw [runNode_count_of_ne cfg e n s h]
      exact hinv.1
  refine ⟨⟨hbound, ?_⟩, runNode_count_mono cfg e n s⟩
  intro href
  subst href
  exact nextNode_refine cfg n _ hm

/-- The iteration invariant holds at every reachable configuration. -/
lemma run_inv (cfg : RAGConfig) (envs : ℕ → Env) (p : Node × GraphRAGState)
    (hp : IterInv cfg p) :
    ∀ k c, run cfg envs p k = some c → IterInv cfg c := by
  intro k
  induction k with
  | zero =>
      intro c hc
      simp only [run, Option.some.injEq] at hc
      exact hc ▸ hp
  | succ k ih =>
      intro c hc
      simp only [run] at hc
      rcases Option.bind_eq_some.mp hc with ⟨c0, hc0, hstep⟩
      exact (step_inv cfg (envs k) c0 c (ih c0 hc0) hstep).1

/-- Along any run from an invariant-satisfying start, the counter is
non-decreasing between any two reachable configurations. -/
lemma run_count_le (cfg : RAGConfig) (envs : ℕ → Env) (p : Node × GraphRAGState)
    (hp : IterInv cfg p) (j k : ℕ) (hjk : j ≤ k) :
    ∀ cj ck, run cfg envs p j = some cj → run cfg envs p k = some ck →
      cj.2.iteration_count ≤ ck.2.iteration_count := by
  induction k, hjk using Nat.le_induction with
  | base =>
      intro cj ck h1 h2
      rw [h1] at h2
      injection h2 with h2
      rw [h2]
  | succ k hk ih =>
      intro cj ck h1 h2
      simp only [run] at h2
      rcases Option.bind_eq_some.mp h2 with ⟨c0, hc0, hstep⟩
      exact le_trans (ih cj c0 h1 hc0)
        (step_inv cfg (envs k) c0 ck (run_inv cfg envs p hp k c0 hc0) hstep).2

/-- C1: along every workflow run (any oracle replies), the iteration
counter is non-decreasing across node executions and never exceeds the
configured max_iterations. -/
theorem iteration_count_monotone_bounded (cfg : RAGConfig) (envs : ℕ → Env)
    (q : String) (uid : Option String) (j k : ℕ) (hjk : j ≤ k)
    (cj ck : Node × GraphRAGState)
    (hj : run cfg envs (Node.decompose_query, initState q uid) j = some cj)
    (hk : run cfg envs (Node.decompose_query, initState q uid) k = some ck) :
    cj.2.iteration_count ≤ ck.2.iteration_count ∧
    ck.2.iteration_count ≤ cfg.max_iterations := by
  have hp : IterInv cfg (Node.decompose_query, initState q uid) :=
    ⟨Nat.zero_le _, by simp⟩
  exact ⟨run_count_le cfg envs _ hp j k hjk cj ck hj hk,
    (run_inv cfg envs _ hp k ck hk).1⟩

/-- Witness for C1 on a concrete two-step run with failing oracles. -/
theorem iteration_count_monotone_bounded_witness :
    (0 : ℕ) ≤ 1 ∧
    ∃ cj ck : Node × GraphRAGState,
      run defaultCfg (fun _ => envFail)
        (Node.decompose_query, initState "q" none) 0 = some cj ∧
      run defaultCfg (fun _ => envFail)
        (Node.decompose_query, initState "q" none) 1 = some ck ∧
      cj.2.iteration_count ≤ ck.2.iteration_count ∧
      ck.2.iteration_count ≤ defaultCfg.max_iterations :=
  ⟨Nat.zero_le 1, (Node.decompose_query, initState "q" none),
    (Node.retrieve,
      { initState "q" none with sub_queries := ["q"], sub_query_results := [] }),
    rfl, rfl,
    iteration_count_monotone_bounded defaultCfg (fun _ => envFail) "q" none 0 1
      (Nat.zero_le 1) _ _ rfl rfl⟩

/-- One step from the retrieve node on a state whose sub-query list holds
the same query twice, already recorded as a key: the retrieve node finds
no remaining sub-query and delegates to aggregate inline, but the router
still compares mapping size against list length and sends the run back to
retrieve with the sub-query bookkeeping unchanged. -/
lemma step_duplicate_subquery (cfg : RAGConfig) (e : Env) (s : GraphRAGState)
    (l : List RetrievedChunk) (hq : s.sub_queries = ["a", "a"])
    (hr : s.sub_query_results = [("a", l)]) :
    ∃ s' : GraphRAGState, step cfg e (Node.retrieve, s) = some (Node.retrieve, s') ∧
      s'.sub_queries = ["a", "a"] ∧ s'.sub_query_results = [("a", l)] := by
  have h1 : s.sub_queries ≠ [] := by
    rw [hq]
    simp
  have h2 : s.sub_query_results.length < s.sub_queries.length := by
    rw [hq, hr]
    simp
  have hfil : s.sub_queries.filter
      (fun sq => ¬ dictContains s.sub_query_results sq) = [] := by
    rw [hq, hr]
    simp [dictContains]
  have hret : Nodes.retrieve cfg e.searchResp s = Nodes.aggregate_results s := by
    unfold Nodes.retrieve
    rw [if_pos ⟨h1, h2⟩, hfil]
  have haq : (Nodes.aggregate_results s).sub_queries = ["a", "a"] := by
    rw [aggregate_results_sub_queries, hq]
  have har : (Nodes.aggregate_results s).sub_query_results = [("a", l)] := by
    rw [aggregate_results_sub_query_results, hr]
  have hnext : should_continue_retrieve (Nodes.aggregate_results s) =
      Node.retrieve := by
    unfold should_continue_retrieve
    rw [if_pos]
    refine ⟨by rw [haq]; simp, ?_⟩
    rw [haq, har]
    simp
  refine ⟨Nodes.aggregate_results s, ?_, haq, har⟩
  simp only [step, runNode, hret, nextNode, hnext]
  rfl

/-- C2 fails on the code: starting the retrieve loop with the duplicate
sub-query list produced by a decomposition that repeated a line, the run
stays at the retrieve node forever — the mapping can never reach the
length of the list, so the terminal generate_answer node is never reached
however many steps are taken and whatever the oracles reply. -/
theorem retrieve_duplicate_subquery_no_termination (cfg : RAGConfig)
    (envs : ℕ → Env) (k : ℕ) :
    ∃ s : GraphRAGState,
      run cfg envs (Node.retrieve, dupState) k = some (Node.retrieve, s) ∧
      s.sub_queries = ["a", "a"] ∧ s.sub_query_results = [("a", [])] := by
  induction k with
  | zero => exact ⟨dupState, rfl, rfl, rfl⟩
  | succ k ih =>
      rcases ih with ⟨s, hrun, hq, hr⟩
      rcases step_duplicate_subquery cfg (envs k) s [] hq hr with ⟨s', hstep, hq', hr'⟩
      refine ⟨s', ?_, hq', hr'⟩
      simp only [run, hrun, Option.bind_some]
      exact hstep

end Crybaby
